import Mathlib

/-!
Shallow embedding of the grid density analyzer of
`src/main.py` (`LocationIntelligenceTool.analyze_density` and
`LocationIntelligenceTool.reverse_geocode`), together with proofs of the
specified properties.

Modelling choices:
* Python floats are modelled as exact rationals (`ℚ`); the literal `0.01`
  becomes `1/100`.
* Python `int(x)` truncates toward zero; `pyInt` below does the same.
* The Python dict `grid_counts` preserves insertion order; it is modelled
  as an association list updated in place by `bump` (new keys appended at
  the end, exactly as a dict insertion).
* Python `sorted(..., key=lambda x: x[1], reverse=True)` is a stable sort,
  descending by count; `List.insertionSort countGE` computes the same list
  (the unique permutation that is sorted descending by count and keeps the
  relative order of entries with equal counts).
* The grid key `f"{lat_bin},{lng_bin}"` and its round trip through
  `map(int, grid_key.split(','))` are modelled by the integer pair itself:
  for integer bins the string encoding is injective and the parse is exact.
* The network-backed reverse geocoding call is modelled by an injected
  oracle `geo : ℚ → ℚ → GeoOutcome` describing, for given coordinates,
  whether the HTTP request raises, and otherwise the status flag, whether
  the result list is nonempty, and the optional `formatted_address` field.
* The dynamic `isinstance(places, list)` check is modelled by the input
  type `PlacesInput`, which is either `notAList` or an actual list.
* The `try`/`except` of `analyze_density` is modelled by `Except String`:
  for well-formed places and integer grid size, the only reachable
  exception is the `ZeroDivisionError` raised when `grid_size == 0` and a
  bounding-box axis is non-degenerate.
-/

namespace GridDensity

/-- A place record as produced by `search_places`: name, coordinates,
optional rating and address.  `analyze_density` reads only `lat`/`lng`. -/
structure Place where
  name : String
  lat : ℚ
  lng : ℚ
  rating : Option ℚ
  address : Option String
deriving DecidableEq, Repr

/-- Outcome of the external reverse-geocoding HTTP call at given
coordinates: the request may raise, or return a parsed body with a status
flag (`status == "OK"`), a flag for a nonempty `results` list, and the
optional `formatted_address` of the first result. -/
inductive GeoOutcome where
  | raise : GeoOutcome
  | response (statusOk : Bool) (hasResults : Bool)
      (formattedAddress : Option String) : GeoOutcome
deriving DecidableEq, Repr

/-- `LocationIntelligenceTool.reverse_geocode`: every failure of the
external call (exception, bad status, empty results, missing address
field) is absorbed into the literal fallback string. -/
def reverse_geocode : GeoOutcome → String
  | .raise => "Unknown location"
  | .response statusOk hasResults formattedAddress =>
      if statusOk && hasResults then formattedAddress.getD "Unknown location"
      else "Unknown location"

/-- One entry of the `hotspots` list of the density report. -/
structure Hotspot where
  grid_cell : ℤ × ℤ
  count : ℕ
  center_lat : ℚ
  center_lng : ℚ
  approximate_location : String
deriving DecidableEq, Repr

/-- The successful result dict of `analyze_density`. -/
structure DensityReport where
  total_places : ℕ
  grid_size : ℤ
  hotspots : List Hotspot
deriving DecidableEq, Repr

/-- The `places` argument: Python is dynamically typed, so the argument is
either not a list at all or a list of place records. -/
inductive PlacesInput where
  | notAList : PlacesInput
  | ofList (ps : List Place) : PlacesInput

/-- Python `min` over a nonempty list (left fold of binary `min`). -/
def listMin : List ℚ → ℚ
  | [] => 0
  | x :: xs => xs.foldl min x

/-- Python `max` over a nonempty list (left fold of binary `max`). -/
def listMax : List ℚ → ℚ
  | [] => 0
  | x :: xs => xs.foldl max x

/-- Python `int(q)`: truncation toward zero. -/
def pyInt (q : ℚ) : ℤ := if 0 ≤ q then ⌊q⌋ else ⌈q⌉

/-- `lat_step = (max_lat - min_lat) / grid_size if max_lat != min_lat else 0.01`
(generic in the coordinate list). -/
def stepOf (l : List ℚ) (g : ℤ) : ℚ :=
  if listMax l ≠ listMin l then (listMax l - listMin l) / (g : ℚ) else 1/100

/-- `int((x - mn) / step) if step != 0 else 0`. -/
def rawBin (mn step x : ℚ) : ℤ :=
  if step ≠ 0 then pyInt ((x - mn) / step) else 0

/-- `if bin >= grid_size: bin = grid_size - 1`. -/
def clampBin (g b : ℤ) : ℤ := if b ≥ g then g - 1 else b

/-- Bin of one coordinate along one axis. -/
def binOf (l : List ℚ) (g : ℤ) (x : ℚ) : ℤ :=
  clampBin g (rawBin (listMin l) (stepOf l g) x)

/-- The latitudes of the places, in order (`lats = [place["lat"] ...]`). -/
def latsOf (places : List Place) : List ℚ := places.map (·.lat)

/-- The longitudes of the places, in order. -/
def lngsOf (places : List Place) : List ℚ := places.map (·.lng)

/-- `min_lat` of the bounding box. -/
def minLatOf (places : List Place) : ℚ := listMin (latsOf places)

/-- `max_lat` of the bounding box. -/
def maxLatOf (places : List Place) : ℚ := listMax (latsOf places)

/-- `min_lng` of the bounding box. -/
def minLngOf (places : List Place) : ℚ := listMin (lngsOf places)

/-- `max_lng` of the bounding box. -/
def maxLngOf (places : List Place) : ℚ := listMax (lngsOf places)

/-- `lat_step`. -/
def latStepOf (places : List Place) (g : ℤ) : ℚ := stepOf (latsOf places) g

/-- `lng_step`. -/
def lngStepOf (places : List Place) (g : ℤ) : ℚ := stepOf (lngsOf places) g

/-- The grid cell `(lat_bin, lng_bin)` assigned to a place. -/
def cellOf (places : List Place) (g : ℤ) (p : Place) : ℤ × ℤ :=
  (binOf (latsOf places) g p.lat, binOf (lngsOf places) g p.lng)

/-- `grid_counts[grid_key] = grid_counts.get(grid_key, 0) + 1` on an
insertion-ordered association list: an existing key is incremented in
place, a new key is appended at the end. -/
def bump (key : ℤ × ℤ) : List ((ℤ × ℤ) × ℕ) → List ((ℤ × ℤ) × ℕ)
  | [] => [(key, 1)]
  | (k, c) :: rest =>
      if k = key then (k, c + 1) :: rest else (k, c) :: bump key rest

/-- The `grid_counts` dict after the scan over `places`, as an
insertion-ordered association list. -/
def gridCountsOf (places : List Place) (g : ℤ) : List ((ℤ × ℤ) × ℕ) :=
  places.foldl (fun acc p => bump (cellOf places g p) acc) []

/-- The sort order of `sorted(grid_counts.items(), key=lambda x: x[1],
reverse=True)`: descending by count. -/
def countGE (a b : (ℤ × ℤ) × ℕ) : Prop := b.2 ≤ a.2

instance : DecidableRel countGE := fun a b => Nat.decLe b.2 a.2

instance : IsTotal ((ℤ × ℤ) × ℕ) countGE := ⟨fun a b => le_total b.2 a.2⟩

instance : IsTrans ((ℤ × ℤ) × ℕ) countGE := ⟨fun _ _ _ h1 h2 => le_trans h2 h1⟩

/-- The `hotspots` list produced by the stable descending sort. -/
def sortedCellsOf (places : List Place) (g : ℤ) : List ((ℤ × ℤ) × ℕ) :=
  List.insertionSort countGE (gridCountsOf places g)

/-- One hotspot detail record: centroid coordinates and the label obtained
from the reverse-geocoding oracle. -/
def mkHotspot (geo : ℚ → ℚ → GeoOutcome) (mnLat mnLng stLat stLng : ℚ)
    (kv : (ℤ × ℤ) × ℕ) : Hotspot :=
  let centerLat := mnLat + ((kv.1.1 : ℚ) + 1/2) * stLat
  let centerLng := mnLng + ((kv.1.2 : ℚ) + 1/2) * stLng
  { grid_cell := kv.1
    count := kv.2
    center_lat := centerLat
    center_lng := centerLng
    approximate_location := reverse_geocode (geo centerLat centerLng) }

/-- The `hotspot_details` list: top 3 cells of the sorted order, with
centroids and labels. -/
def hotspotsOf (geo : ℚ → ℚ → GeoOutcome) (places : List Place) (g : ℤ) :
    List Hotspot :=
  ((sortedCellsOf places g).take 3).map
    (mkHotspot geo (minLatOf places) (minLngOf places)
      (latStepOf places g) (lngStepOf places g))

/-- `LocationIntelligenceTool.analyze_density`.  Returns the error dict
`{"error": "No places to analyze"}` for a non-list or empty input; the
`try` block raises only on the division by zero that occurs when
`grid_size == 0` while a bounding-box axis is non-degenerate, caught into
the error dict `{"error": str(e)}`; otherwise it returns the full report. -/
def analyze_density (geo : ℚ → ℚ → GeoOutcome) (input : PlacesInput)
    (grid_size : ℤ) : Except String DensityReport :=
  match input with
  | .notAList => .error "No places to analyze"
  | .ofList places =>
      if places.isEmpty then .error "No places to analyze"
      else if (maxLatOf places ≠ minLatOf places ∨
               maxLngOf places ≠ minLngOf places) ∧ grid_size = 0 then
        .error "float division by zero"
      else
        .ok { total_places := places.length
              grid_size := grid_size
              hotspots := hotspotsOf geo places grid_size }

/-- A report with the labels removed: the part of the output that does not
depend on the reverse-geocoding collaborator. -/
def stripReport (r : DensityReport) :
    ℕ × ℤ × List ((ℤ × ℤ) × ℕ × ℚ × ℚ) :=
  (r.total_places, r.grid_size,
    r.hotspots.map fun h => (h.grid_cell, h.count, h.center_lat, h.center_lng))

/-- A geocoding oracle whose HTTP call always raises. -/
def geoRaise : ℚ → ℚ → GeoOutcome := fun _ _ => .raise

/-- Concrete place at the origin, for witnesses. -/
def p00 : Place := { name := "A", lat := 0, lng := 0, rating := none, address := none }

/-- Concrete place at (1, 2), for witnesses. -/
def p12 : Place := { name := "B", lat := 1, lng := 2, rating := none, address := none }

/-! ### Lemmas about `listMin` / `listMax` -/

theorem foldl_min_le_init (l : List ℚ) (a : ℚ) : l.foldl min a ≤ a := by
  induction l generalizing a with
  | nil => exact le_refl a
  | cons b t ih =>
      calc (b :: t).foldl min a = t.foldl min (min a b) := rfl
        _ ≤ min a b := ih _
        _ ≤ a := min_le_left _ _

theorem foldl_min_le_mem (l : List ℚ) (a x : ℚ) (hx : x ∈ l) :
    l.foldl min a ≤ x := by
  induction l generalizing a with
  | nil => cases hx
  | cons b t ih =>
      rcases List.mem_cons.mp hx with h | h
      · subst h
        calc (x :: t).foldl min a = t.foldl min (min a x) := rfl
          _ ≤ min a x := foldl_min_le_init _ _
          _ ≤ x := min_le_right _ _
      · exact ih _ h

theorem init_le_foldl_max (l : List ℚ) (a : ℚ) : a ≤ l.foldl max a := by
  induction l generalizing a with
  | nil => exact le_refl a
  | cons b t ih =>
      calc a ≤ max a b := le_max_left _ _
        _ ≤ t.foldl max (max a b) := ih _
        _ = (b :: t).foldl max a := rfl

theorem mem_le_foldl_max (l : List ℚ) (a x : ℚ) (hx : x ∈ l) :
    x ≤ l.foldl max a := by
  induction l generalizing a with
  | nil => cases hx
  | cons b t ih =>
      rcases List.mem_cons.mp hx with h | h
      · subst h
        calc x ≤ max a x := le_max_right _ _
          _ ≤ t.foldl max (max a x) := init_le_foldl_max _ _
          _ = (x :: t).foldl max a := rfl
      · exact ih _ h

theorem listMin_le_mem (l : List ℚ) (x : ℚ) (hx : x ∈ l) : listMin l ≤ x := by
  cases l with
  | nil => cases hx
  | cons a t =>
      rcases List.mem_cons.mp hx with h | h
      · subst h; exact foldl_min_le_init t x
      · exact foldl_min_le_mem t a x h

theorem mem_le_listMax (l : List ℚ) (x : ℚ) (hx : x ∈ l) : x ≤ listMax l := by
  cases l with
  | nil => cases hx
  | cons a t =>
      rcases List.mem_cons.mp hx with h | h
      · subst h; exact init_le_foldl_max t x
      · exact mem_le_foldl_max t a x h

theorem listMin_le_listMax (l : List ℚ) (hne : l ≠ []) :
    listMin l ≤ listMax l := by
  cases l with
  | nil => exact absurd rfl hne
  | cons a t =>
      exact le_trans (listMin_le_mem _ a (List.mem_cons_self a t))
        (mem_le_listMax _ a (List.mem_cons_self a t))

/-! ### Step positivity and bin bounds -/

theorem stepOf_pos (l : List ℚ) (g : ℤ) (hne : l ≠ []) (hg : 1 ≤ g) :
    0 < stepOf l g := by
  unfold stepOf
  by_cases h : listMax l ≠ listMin l
  · rw [if_pos h]
    have hle : listMin l ≤ listMax l := listMin_le_listMax l hne
    have hlt : listMin l < listMax l := lt_of_le_of_ne hle (Ne.symm h)
    have hgpos : (0 : ℚ) < (g : ℚ) := by exact_mod_cast lt_of_lt_of_le Int.zero_lt_one hg
    exact div_pos (sub_pos.mpr hlt) hgpos
  · rw [if_neg h]; norm_num

theorem pyInt_nonneg (q : ℚ) (hq : 0 ≤ q) : 0 ≤ pyInt q := by
  unfold pyInt
  rw [if_pos hq]
  exact Int.floor_nonneg.mpr hq

theorem rawBin_nonneg (mn step x : ℚ) (hmn : mn ≤ x) (hstep : 0 < step) :
    0 ≤ rawBin mn step x := by
  unfold rawBin
  rw [if_pos (ne_of_gt hstep)]
  exact pyInt_nonneg _ (div_nonneg (sub_nonneg.mpr hmn) (le_of_lt hstep))

theorem clampBin_mem (g b : ℤ) (hb : 0 ≤ b) (hg : 1 ≤ g) :
    0 ≤ clampBin g b ∧ clampBin g b < g := by
  unfold clampBin
  by_cases h : b ≥ g
  · rw [if_pos h]; omega
  · rw [if_neg h]; omega

theorem binOf_mem (l : List ℚ) (g : ℤ) (x : ℚ) (hx : x ∈ l) (hne : l ≠ [])
    (hg : 1 ≤ g) : 0 ≤ binOf l g x ∧ binOf l g x < g :=
  clampBin_mem g _
    (rawBin_nonneg _ _ _ (listMin_le_mem l x hx) (stepOf_pos l g hne hg)) hg

theorem clampBin_of_ge (g b : ℤ) (h : b ≥ g) : clampBin g b = g - 1 := if_pos h

/-! ### Lemmas about `bump` and `gridCountsOf` -/

theorem bump_sum (key : ℤ × ℤ) (l : List ((ℤ × ℤ) × ℕ)) :
    ((bump key l).map (·.2)).sum = (l.map (·.2)).sum + 1 := by
  induction l with
  | nil => rfl
  | cons kv t ih =>
      obtain ⟨k, c⟩ := kv
      by_cases h : k = key
      · simp only [bump, if_pos h, List.map_cons, List.sum_cons]
        omega
      · simp only [bump, if_neg h, List.map_cons, List.sum_cons, ih]
        omega

theorem keys_bump (key : ℤ × ℤ) (l : List ((ℤ × ℤ) × ℕ)) :
    (bump key l).map (·.1) =
      if key ∈ l.map (·.1) then l.map (·.1) else l.map (·.1) ++ [key] := by
  induction l with
  | nil => simp [bump]
  | cons kv t ih =>
      obtain ⟨k, c⟩ := kv
      by_cases h : k = key
      · subst h
        simp [bump]
      · simp only [bump, if_neg h, List.map_cons, ih]
        by_cases hmem : key ∈ t.map (·.1)
        · rw [if_pos hmem, if_pos (by simp [hmem])]
        · rw [if_neg hmem, if_neg (by simp [hmem, Ne.symm h]), List.cons_append]

theorem nodup_keys_bump (key : ℤ × ℤ) (l : List ((ℤ × ℤ) × ℕ))
    (h : (l.map (·.1)).Nodup) : ((bump key l).map (·.1)).Nodup := by
  rw [keys_bump]
  by_cases hmem : key ∈ l.map (·.1)
  · rwa [if_pos hmem]
  · rw [if_neg hmem]
    refine List.Nodup.append h (List.nodup_singleton key) ?_
    intro a ha hk
    rw [List.mem_singleton] at hk
    exact hmem (hk ▸ ha)

theorem mem_keys_bump_iff (key a : ℤ × ℤ) (l : List ((ℤ × ℤ) × ℕ)) :
    a ∈ (bump key l).map (·.1) ↔ a = key ∨ a ∈ l.map (·.1) := by
  rw [keys_bump]
  by_cases hmem : key ∈ l.map (·.1)
  · rw [if_pos hmem]
    constructor
    · exact fun h => Or.inr h
    · rintro (rfl | h) <;> [exact hmem; exact h]
  · rw [if_neg hmem]
    simp [or_comm]

/-- Summing the counts through the scan: each place adds exactly one. -/
theorem foldl_bump_sum (f : Place → ℤ × ℤ) (l : List Place)
    (acc : List ((ℤ × ℤ) × ℕ)) :
    (((l.foldl (fun a p => bump (f p) a) acc)).map (·.2)).sum =
      (acc.map (·.2)).sum + l.length := by
  induction l generalizing acc with
  | nil => simp
  | cons p t ih =>
      calc ((((p :: t).foldl (fun a q => bump (f q) a) acc)).map (·.2)).sum
          = (((t.foldl (fun a q => bump (f q) a) (bump (f p) acc))).map (·.2)).sum := rfl
        _ = ((bump (f p) acc).map (·.2)).sum + t.length := ih _
        _ = (acc.map (·.2)).sum + 1 + t.length := by rw [bump_sum]
        _ = (acc.map (·.2)).sum + (p :: t).length := by
              simp [List.length_cons]; omega

theorem foldl_bump_nodup_keys (f : Place → ℤ × ℤ) (l : List Place)
    (acc : List ((ℤ × ℤ) × ℕ)) (h : (acc.map (·.1)).Nodup) :
    (((l.foldl (fun a p => bump (f p) a) acc)).map (·.1)).Nodup := by
  induction l generalizing acc with
  | nil => exact h
  | cons p t ih => exact ih _ (nodup_keys_bump _ _ h)

theorem mem_keys_foldl_bump_iff (f : Place → ℤ × ℤ) (l : List Place)
    (acc : List ((ℤ × ℤ) × ℕ)) (a : ℤ × ℤ) :
    a ∈ ((l.foldl (fun x p => bump (f p) x) acc)).map (·.1) ↔
      (∃ p ∈ l, f p = a) ∨ a ∈ acc.map (·.1) := by
  induction l generalizing acc with
  | nil => simp
  | cons p t ih =>
      calc a ∈ (((p :: t).foldl (fun x q => bump (f q) x) acc)).map (·.1)
          ↔ a ∈ ((t.foldl (fun x q => bump (f q) x) (bump (f p) acc))).map (·.1) :=
            Iff.rfl
        _ ↔ (∃ q ∈ t, f q = a) ∨ a ∈ (bump (f p) acc).map (·.1) := ih _
        _ ↔ (∃ q ∈ t, f q = a) ∨ (a = f p ∨ a ∈ acc.map (·.1)) := by
              rw [mem_keys_bump_iff]
        _ ↔ (∃ q ∈ p :: t, f q = a) ∨ a ∈ acc.map (·.1) := by
              simp only [List.mem_cons]
              constructor
              · rintro (⟨q, hq, rfl⟩ | rfl | h)
                · exact Or.inl ⟨q, Or.inr hq, rfl⟩
                · exact Or.inl ⟨p, Or.inl rfl, rfl⟩
                · exact Or.inr h
              · rintro (⟨q, rfl | hq, rfl⟩ | h)
                · exact Or.inr (Or.inl rfl)
                · exact Or.inl ⟨q, hq, rfl⟩
                · exact Or.inr (Or.inr h)

/-- Every key of `grid_counts` is the cell of some input place. -/
theorem mem_keys_gridCountsOf (places : List Place) (g : ℤ) (a : ℤ × ℤ) :
    a ∈ (gridCountsOf places g).map (·.1) ↔ ∃ p ∈ places, cellOf places g p = a := by
  unfold gridCountsOf
  rw [mem_keys_foldl_bump_iff]
  simp

/-- The counts of `grid_counts` sum to the number of places. -/
theorem sum_gridCountsOf (places : List Place) (g : ℤ) :
    ((gridCountsOf places g).map (·.2)).sum = places.length := by
  unfold gridCountsOf
  rw [foldl_bump_sum]
  simp

/-- The keys of `grid_counts` are pairwise distinct. -/
theorem nodup_keys_gridCountsOf (places : List Place) (g : ℤ) :
    ((gridCountsOf places g).map (·.1)).Nodup :=
  foldl_bump_nodup_keys _ _ _ List.nodup_nil

/-! ### Stability of the descending sort -/

theorem filter_orderedInsert (k : ℕ) (a : (ℤ × ℤ) × ℕ)
    (l : List ((ℤ × ℤ) × ℕ)) :
    (List.orderedInsert countGE a l).filter (fun kv => decide (kv.2 = k)) =
      if a.2 = k then a :: l.filter (fun kv => decide (kv.2 = k))
      else l.filter (fun kv => decide (kv.2 = k)) := by
  induction l with
  | nil =>
      by_cases h : a.2 = k <;>
        simp [List.orderedInsert, List.filter_cons, h]
  | cons b t ih =>
      by_cases hab : countGE a b
      · by_cases h : a.2 = k <;>
          simp [List.orderedInsert, if_pos hab, List.filter_cons, h]
      · have hba : a.2 < b.2 := by
          simp only [countGE, not_le] at hab
          exact hab
        by_cases h : a.2 = k
        · have hbk : ¬ b.2 = k := by omega
          simp [List.orderedInsert, if_neg hab, List.filter_cons, hbk, ih, h]
        · by_cases hbk : b.2 = k <;>
            simp [List.orderedInsert, if_neg hab, List.filter_cons, hbk, ih, h]

/-- Stability: for each count value, the sorted order lists the cells with
that count exactly in their first-discovery (dict insertion) order. -/
theorem filter_insertionSort (k : ℕ) (l : List ((ℤ × ℤ) × ℕ)) :
    (List.insertionSort countGE l).filter (fun kv => decide (kv.2 = k)) =
      l.filter (fun kv => decide (kv.2 = k)) := by
  induction l with
  | nil => rfl
  | cons a t ih =>
      rw [List.insertionSort, filter_orderedInsert, List.filter_cons]
      by_cases h : a.2 = k <;> simp [h, ih]

/-! ### The success path of `analyze_density` -/

theorem analyze_density_ok (geo : ℚ → ℚ → GeoOutcome) (places : List Place)
    (g : ℤ) (hne : places ≠ [])
    (hval : ¬((maxLatOf places ≠ minLatOf places ∨
               maxLngOf places ≠ minLngOf places) ∧ g = 0)) :
    analyze_density geo (.ofList places) g =
      .ok { total_places := places.length
            grid_size := g
            hotspots := hotspotsOf geo places g } := by
  simp only [analyze_density]
  rw [if_neg (by simpa using hne), if_neg hval]

theorem analyze_density_ok_of_ne_zero (geo : ℚ → ℚ → GeoOutcome)
    (places : List Place) (g : ℤ) (hne : places ≠ []) (hg : g ≠ 0) :
    analyze_density geo (.ofList places) g =
      .ok { total_places := places.length
            grid_size := g
            hotspots := hotspotsOf geo places g } :=
  analyze_density_ok geo places g hne (fun h => hg h.2)

/-! ### The degenerate (all-identical) scan -/

theorem foldl_bump_const (f : Place → ℤ × ℤ) (key : ℤ × ℤ) :
    ∀ (l : List Place) (c : ℕ), (∀ p ∈ l, f p = key) →
      l.foldl (fun a p => bump (f p) a) [(key, c)] = [(key, c + l.length)]
  | [], c, _ => by simp
  | p :: t, c, hf => by
      have hp : f p = key := hf p (List.mem_cons_self p t)
      have step1 : bump (f p) [(key, c)] = [(key, c + 1)] := by
        rw [hp]; simp [bump]
      calc (p :: t).foldl (fun a q => bump (f q) a) [(key, c)]
          = t.foldl (fun a q => bump (f q) a) (bump (f p) [(key, c)]) := rfl
        _ = t.foldl (fun a q => bump (f q) a) [(key, c + 1)] := by rw [step1]
        _ = [(key, c + 1 + t.length)] :=
            foldl_bump_const f key t (c + 1)
              (fun q hq => hf q (List.mem_cons_of_mem p hq))
        _ = [(key, c + (p :: t).length)] := by
            rw [List.length_cons]
            have h : c + 1 + t.length = c + (t.length + 1) := by omega
            rw [h]

/-- If every place is assigned the same cell, `grid_counts` is that single
cell with the full count. -/
theorem gridCountsOf_const (places : List Place) (g : ℤ) (key : ℤ × ℤ)
    (hne : places ≠ []) (hkey : ∀ p ∈ places, cellOf places g p = key) :
    gridCountsOf places g = [(key, places.length)] := by
  unfold gridCountsOf
  cases places with
  | nil => exact absurd rfl hne
  | cons p t =>
      have hp : cellOf (p :: t) g p = key := hkey p (List.mem_cons_self p t)
      have step1 : bump (cellOf (p :: t) g p) ([] : List ((ℤ × ℤ) × ℕ)) =
          [(key, 1)] := by rw [hp]; rfl
      calc (p :: t).foldl (fun a q => bump (cellOf (p :: t) g q) a) []
          = t.foldl (fun a q => bump (cellOf (p :: t) g q) a)
              (bump (cellOf (p :: t) g p) []) := rfl
        _ = t.foldl (fun a q => bump (cellOf (p :: t) g q) a) [(key, 1)] := by
            rw [step1]
        _ = [(key, 1 + t.length)] :=
            foldl_bump_const _ key t 1
              (fun q hq => hkey q (List.mem_cons_of_mem p hq))
        _ = [(key, (p :: t).length)] := by
            rw [List.length_cons, Nat.add_comm]

theorem le_foldl_min (l : List ℚ) (a c : ℚ) (hca : c ≤ a)
    (h : ∀ x ∈ l, c ≤ x) : c ≤ l.foldl min a := by
  induction l generalizing a with
  | nil => exact hca
  | cons b t ih =>
      exact ih _ (le_min hca (h b (List.mem_cons_self b t)))
        (fun x hx => h x (List.mem_cons_of_mem b hx))

theorem foldl_max_le (l : List ℚ) (a c : ℚ) (hac : a ≤ c)
    (h : ∀ x ∈ l, x ≤ c) : l.foldl max a ≤ c := by
  induction l generalizing a with
  | nil => exact hac
  | cons b t ih =>
      exact ih _ (max_le hac (h b (List.mem_cons_self b t)))
        (fun x hx => h x (List.mem_cons_of_mem b hx))

theorem listMin_const (l : List ℚ) (a : ℚ) (hne : l ≠ [])
    (h : ∀ x ∈ l, x = a) : listMin l = a := by
  cases l with
  | nil => exact absurd rfl hne
  | cons b t =>
      have hb : b = a := h b (List.mem_cons_self b t)
      subst hb
      exact le_antisymm (foldl_min_le_init t b)
        (le_foldl_min t b b (le_refl b)
          (fun x hx => le_of_eq (h x (List.mem_cons_of_mem b hx)).symm))

theorem listMax_const (l : List ℚ) (a : ℚ) (hne : l ≠ [])
    (h : ∀ x ∈ l, x = a) : listMax l = a := by
  cases l with
  | nil => exact absurd rfl hne
  | cons b t =>
      have hb : b = a := h b (List.mem_cons_self b t)
      subst hb
      exact le_antisymm
        (foldl_max_le t b b (le_refl b)
          (fun x hx => le_of_eq (h x (List.mem_cons_of_mem b hx))))
        (init_le_foldl_max t b)

/-! ### Claim theorems -/

/-- C1: for every non-empty list of places and integer grid size `≥ 1`,
`analyze_density` returns a report whose `total_places` equals the number
of input places, the counts of all grid cells sum to `total_places`, and
every input place is assigned exactly one grid cell. -/
theorem analyze_density_count_conservation (geo : ℚ → ℚ → GeoOutcome)
    (places : List Place) (g : ℤ) (hne : places ≠ []) (hg : 1 ≤ g) :
    ∃ r, analyze_density geo (.ofList places) g = .ok r ∧
      r.total_places = places.length ∧
      ((gridCountsOf places g).map (·.2)).sum = r.total_places ∧
      ∀ p ∈ places, ∃! c : ℤ × ℤ, cellOf places g p = c := by
  refine ⟨_, analyze_density_ok_of_ne_zero geo places g hne (by omega), rfl,
    sum_gridCountsOf places g, ?_⟩
  intro p _
  exact ⟨cellOf places g p, rfl, fun c hc => hc.symm⟩

theorem analyze_density_count_conservation_witness :
    ∃ r, analyze_density geoRaise (.ofList [p00, p12]) 5 = .ok r ∧
      r.total_places = [p00, p12].length ∧
      ((gridCountsOf [p00, p12] 5).map (·.2)).sum = r.total_places ∧
      ∀ p ∈ [p00, p12], ∃! c : ℤ × ℤ, cellOf [p00, p12] 5 p = c :=
  analyze_density_count_conservation geoRaise [p00, p12] 5 (by decide)
    (by decide)

/-- C2: for a place of a non-empty input list and grid size `≥ 1`, the
assigned row and column bins satisfy `0 ≤ bin < gridSize`; moreover any
raw bin `≥ gridSize` is clamped to exactly `gridSize - 1`. -/
theorem cellOf_bin_range (places : List Place) (g : ℤ) (p : Place)
    (hp : p ∈ places) (hg : 1 ≤ g) :
    (0 ≤ (cellOf places g p).1 ∧ (cellOf places g p).1 < g) ∧
    (0 ≤ (cellOf places g p).2 ∧ (cellOf places g p).2 < g) ∧
    (∀ b : ℤ, b ≥ g → clampBin g b = g - 1) := by
  have hne : places ≠ [] := List.ne_nil_of_mem hp
  have hlat : p.lat ∈ latsOf places := List.mem_map_of_mem _ hp
  have hlng : p.lng ∈ lngsOf places := List.mem_map_of_mem _ hp
  have hlats : latsOf places ≠ [] := fun h => hne (List.map_eq_nil_iff.mp h)
  have hlngs : lngsOf places ≠ [] := fun h => hne (List.map_eq_nil_iff.mp h)
  exact ⟨binOf_mem _ g _ hlat hlats hg, binOf_mem _ g _ hlng hlngs hg,
    fun b hb => clampBin_of_ge g b hb⟩

theorem cellOf_bin_range_witness :
    ((0 ≤ (cellOf [p00, p12] 5 p12).1 ∧ (cellOf [p00, p12] 5 p12).1 < 5) ∧
     (0 ≤ (cellOf [p00, p12] 5 p12).2 ∧ (cellOf [p00, p12] 5 p12).2 < 5) ∧
     (∀ b : ℤ, b ≥ 5 → clampBin 5 b = 5 - 1)) :=
  cellOf_bin_range [p00, p12] 5 p12 (by decide) (by decide)

/-- C4: for a non-empty list of places and integer grid size `≥ 1`, the
computation after input validation cannot fail (no division by zero, by
the fallback step): the result is a complete report; and in general the
caller receives either a complete report or a single error value. -/
theorem analyze_density_no_failure_after_validation
    (geo : ℚ → ℚ → GeoOutcome) (places : List Place) (g : ℤ)
    (hne : places ≠ []) (hg : 1 ≤ g) :
    (∃ r, analyze_density geo (.ofList places) g = .ok r) ∧
    (∀ (input : PlacesInput) (g2 : ℤ),
      (∃ r, analyze_density geo input g2 = .ok r) ∨
      (∃ e, analyze_density geo input g2 = .error e)) := by
  constructor
  · exact ⟨_, analyze_density_ok_of_ne_zero geo places g hne (by omega)⟩
  · intro input g2
    cases h : analyze_density geo input g2 with
    | ok r => exact Or.inl ⟨r, rfl⟩
    | error e => exact Or.inr ⟨e, rfl⟩

theorem analyze_density_no_failure_after_validation_witness :
    (∃ r, analyze_density geoRaise (.ofList [p00, p12]) 5 = .ok r) ∧
    (∀ (input : PlacesInput) (g2 : ℤ),
      (∃ r, analyze_density geoRaise input g2 = .ok r) ∨
      (∃ e, analyze_density geoRaise input g2 = .error e)) :=
  analyze_density_no_failure_after_validation geoRaise [p00, p12] 5
    (by decide) (by decide)

/-- C6: a non-list or empty `places` argument yields the structured error
value `"No places to analyze"` (not an exception) and no report. -/
theorem analyze_density_empty_input (geo : ℚ → ℚ → GeoOutcome) (g : ℤ) :
    analyze_density geo .notAList g = .error "No places to analyze" ∧
    analyze_density geo (.ofList []) g = .error "No places to analyze" :=
  ⟨rfl, rfl⟩

theorem mkHotspot_count (geo : ℚ → ℚ → GeoOutcome) (mnLat mnLng sLat sLng : ℚ)
    (kv : (ℤ × ℤ) × ℕ) :
    (mkHotspot geo mnLat mnLng sLat sLng kv).count = kv.2 := rfl

theorem mkHotspot_cell (geo : ℚ → ℚ → GeoOutcome) (mnLat mnLng sLat sLng : ℚ)
    (kv : (ℤ × ℤ) × ℕ) :
    (mkHotspot geo mnLat mnLng sLat sLng kv).grid_cell = kv.1 := rfl

theorem mkHotspot_center_lat (geo : ℚ → ℚ → GeoOutcome)
    (mnLat mnLng sLat sLng : ℚ) (kv : (ℤ × ℤ) × ℕ) :
    (mkHotspot geo mnLat mnLng sLat sLng kv).center_lat =
      mnLat + ((kv.1.1 : ℚ) + 1/2) * sLat := rfl

theorem mkHotspot_center_lng (geo : ℚ → ℚ → GeoOutcome)
    (mnLat mnLng sLat sLng : ℚ) (kv : (ℤ × ℤ) × ℕ) :
    (mkHotspot geo mnLat mnLng sLat sLng kv).center_lng =
      mnLng + ((kv.1.2 : ℚ) + 1/2) * sLng := rfl

/-- C3: the hotspot list is the top-3 slice of the stable descending sort
of the cells: it is non-increasing by count, and for each count value the
cells appear exactly in first-discovery (scan) order; the whole output is
a function of the input list, hence deterministic. -/
theorem analyze_density_hotspots_sorted_stable (geo : ℚ → ℚ → GeoOutcome)
    (places : List Place) (g : ℤ) (hne : places ≠ []) (hg : 1 ≤ g) :
    ∃ r, analyze_density geo (.ofList places) g = .ok r ∧
      r.hotspots = ((sortedCellsOf places g).take 3).map
        (mkHotspot geo (minLatOf places) (minLngOf places)
          (latStepOf places g) (lngStepOf places g)) ∧
      List.Sorted countGE (sortedCellsOf places g) ∧
      (∀ k : ℕ, (sortedCellsOf places g).filter (fun kv => decide (kv.2 = k)) =
        (gridCountsOf places g).filter (fun kv => decide (kv.2 = k))) ∧
      List.Pairwise (fun x y : Hotspot => y.count ≤ x.count) r.hotspots := by
  refine ⟨_, analyze_density_ok_of_ne_zero geo places g hne (by omega), rfl,
    List.sorted_insertionSort countGE _, fun k => filter_insertionSort k _, ?_⟩
  have h1 : List.Pairwise countGE ((sortedCellsOf places g).take 3) :=
    List.Pairwise.sublist (List.take_sublist 3 _)
      (List.sorted_insertionSort countGE _)
  exact List.pairwise_map.mpr h1

theorem analyze_density_hotspots_sorted_stable_witness :
    ∃ r, analyze_density geoRaise (.ofList [p00, p12]) 5 = .ok r ∧
      r.hotspots = ((sortedCellsOf [p00, p12] 5).take 3).map
        (mkHotspot geoRaise (minLatOf [p00, p12]) (minLngOf [p00, p12])
          (latStepOf [p00, p12] 5) (lngStepOf [p00, p12] 5)) ∧
      List.Sorted countGE (sortedCellsOf [p00, p12] 5) ∧
      (∀ k : ℕ, (sortedCellsOf [p00, p12] 5).filter (fun kv => decide (kv.2 = k)) =
        (gridCountsOf [p00, p12] 5).filter (fun kv => decide (kv.2 = k))) ∧
      List.Pairwise (fun x y : Hotspot => y.count ≤ x.count) r.hotspots :=
  analyze_density_hotspots_sorted_stable geoRaise [p00, p12] 5 (by decide)
    (by decide)

theorem binOf_const_zero (l : List ℚ) (g : ℤ) (x : ℚ) (hmin : listMin l = x)
    (hstep : stepOf l g = 1/100) (hg : 1 ≤ g) : binOf l g x = 0 := by
  unfold binOf
  rw [hmin, hstep]
  have h1 : rawBin x (1/100) x = 0 := by
    unfold rawBin
    rw [if_pos (by norm_num)]
    norm_num [pyInt]
  rw [h1]
  unfold clampBin
  rw [if_neg (by omega)]

/-- C7: if all places share one latitude and one longitude, both steps
fall back to `0.01`, every place lands in cell `(0, 0)`, and the report
has exactly one hotspot whose count is `total_places`. -/
theorem analyze_density_degenerate_single_cell (geo : ℚ → ℚ → GeoOutcome)
    (places : List Place) (g : ℤ) (a b : ℚ) (hne : places ≠ []) (hg : 1 ≤ g)
    (hlat : ∀ p ∈ places, p.lat = a) (hlng : ∀ p ∈ places, p.lng = b) :
    latStepOf places g = 1/100 ∧ lngStepOf places g = 1/100 ∧
    (∀ p ∈ places, cellOf places g p = (0, 0)) ∧
    ∃ r, analyze_density geo (.ofList places) g = .ok r ∧
      r.hotspots.length = 1 ∧
      ∀ h ∈ r.hotspots, h.count = r.total_places ∧ h.grid_cell = (0, 0) := by
  have hlats_ne : latsOf places ≠ [] := fun h => hne (List.map_eq_nil_iff.mp h)
  have hlngs_ne : lngsOf places ≠ [] := fun h => hne (List.map_eq_nil_iff.mp h)
  have hlatsc : ∀ x ∈ latsOf places, x = a := by
    intro x hx
    rcases List.mem_map.mp hx with ⟨p, hp, rfl⟩
    exact hlat p hp
  have hlngsc : ∀ x ∈ lngsOf places, x = b := by
    intro x hx
    rcases List.mem_map.mp hx with ⟨p, hp, rfl⟩
    exact hlng p hp
  have hminlat : listMin (latsOf places) = a := listMin_const _ a hlats_ne hlatsc
  have hmaxlat : listMax (latsOf places) = a := listMax_const _ a hlats_ne hlatsc
  have hminlng : listMin (lngsOf places) = b := listMin_const _ b hlngs_ne hlngsc
  have hmaxlng : listMax (lngsOf places) = b := listMax_const _ b hlngs_ne hlngsc
  have hstep_lat : latStepOf places g = 1/100 := by
    unfold latStepOf stepOf
    rw [hminlat, hmaxlat]
    simp
  have hstep_lng : lngStepOf places g = 1/100 := by
    unfold lngStepOf stepOf
    rw [hminlng, hmaxlng]
    simp
  have hcell : ∀ p ∈ places, cellOf places g p = (0, 0) := by
    intro p hp
    unfold cellOf
    rw [hlat p hp, hlng p hp,
      binOf_const_zero _ g a hminlat hstep_lat hg,
      binOf_const_zero _ g b hminlng hstep_lng hg]
  have hgrid : gridCountsOf places g = [((0, 0), places.length)] :=
    gridCountsOf_const places g (0, 0) hne hcell
  have hsort : sortedCellsOf places g = [((0, 0), places.length)] := by
    unfold sortedCellsOf
    rw [hgrid]
    rfl
  have hhot : hotspotsOf geo places g =
      [mkHotspot geo (minLatOf places) (minLngOf places)
        (latStepOf places g) (lngStepOf places g) ((0, 0), places.length)] := by
    unfold hotspotsOf
    rw [hsort]
    rfl
  refine ⟨hstep_lat, hstep_lng, hcell,
    _, analyze_density_ok_of_ne_zero geo places g hne (by omega), ?_, ?_⟩
  · show (hotspotsOf geo places g).length = 1
    rw [hhot]
    rfl
  · intro h hh
    have hh2 : h ∈ hotspotsOf geo places g := hh
    rw [hhot, List.mem_singleton] at hh2
    subst hh2
    exact ⟨rfl, rfl⟩

/-- C8: the hotspot list is exactly the top `min 3 k` cells where `k` is
the number of distinct occupied cells (the keys of `grid_counts`, which
are pairwise distinct and are exactly the cells of the input places), and
each hotspot's centroid is `min + (bin + 0.5) * step` in both axes. -/
theorem analyze_density_top3_centroids (geo : ℚ → ℚ → GeoOutcome)
    (places : List Place) (g : ℤ) (hne : places ≠ []) (hg : 1 ≤ g) :
    ∃ r, analyze_density geo (.ofList places) g = .ok r ∧
      r.hotspots.length = min 3 (gridCountsOf places g).length ∧
      r.hotspots.length ≤ 3 ∧
      ((gridCountsOf places g).map (·.1)).Nodup ∧
      (∀ c : ℤ × ℤ, c ∈ (gridCountsOf places g).map (·.1) ↔
        ∃ p ∈ places, cellOf places g p = c) ∧
      ∀ h ∈ r.hotspots,
        h.center_lat = minLatOf places +
          ((h.grid_cell.1 : ℚ) + 1/2) * latStepOf places g ∧
        h.center_lng = minLngOf places +
          ((h.grid_cell.2 : ℚ) + 1/2) * lngStepOf places g := by
  refine ⟨_, analyze_density_ok_of_ne_zero geo places g hne (by omega), ?_, ?_,
    nodup_keys_gridCountsOf places g, mem_keys_gridCountsOf places g, ?_⟩
  · show (hotspotsOf geo places g).length = min 3 (gridCountsOf places g).length
    unfold hotspotsOf sortedCellsOf
    rw [List.length_map, List.length_take, List.length_insertionSort]
  · show (hotspotsOf geo places g).length ≤ 3
    unfold hotspotsOf
    rw [List.length_map, List.length_take]
    exact min_le_left 3 _
  · intro h hh
    have hh2 : h ∈ hotspotsOf geo places g := hh
    unfold hotspotsOf at hh2
    rcases List.mem_map.mp hh2 with ⟨kv, hkv, rfl⟩
    exact ⟨rfl, rfl⟩

theorem analyze_density_top3_centroids_witness :
    ∃ r, analyze_density geoRaise (.ofList [p00, p12]) 5 = .ok r ∧
      r.hotspots.length = min 3 (gridCountsOf [p00, p12] 5).length ∧
      r.hotspots.length ≤ 3 ∧
      ((gridCountsOf [p00, p12] 5).map (·.1)).Nodup ∧
      (∀ c : ℤ × ℤ, c ∈ (gridCountsOf [p00, p12] 5).map (·.1) ↔
        ∃ p ∈ [p00, p12], cellOf [p00, p12] 5 p = c) ∧
      ∀ h ∈ r.hotspots,
        h.center_lat = minLatOf [p00, p12] +
          ((h.grid_cell.1 : ℚ) + 1/2) * latStepOf [p00, p12] 5 ∧
        h.center_lng = minLngOf [p00, p12] +
          ((h.grid_cell.2 : ℚ) + 1/2) * lngStepOf [p00, p12] 5 :=
  analyze_density_top3_centroids geoRaise [p00, p12] 5 (by decide) (by decide)

theorem analyze_density_divzero (geo : ℚ → ℚ → GeoOutcome)
    (places : List Place) (g : ℤ) (hne : places ≠ [])
    (hv : (maxLatOf places ≠ minLatOf places ∨
           maxLngOf places ≠ minLngOf places) ∧ g = 0) :
    analyze_density geo (.ofList places) g = .error "float division by zero" := by
  simp only [analyze_density]
  rw [if_neg (by simpa using hne), if_pos hv]

theorem stripHotspots_independent (geo1 geo2 : ℚ → ℚ → GeoOutcome)
    (places : List Place) (g : ℤ) :
    (hotspotsOf geo1 places g).map
        (fun h => (h.grid_cell, h.count, h.center_lat, h.center_lng)) =
      (hotspotsOf geo2 places g).map
        (fun h => (h.grid_cell, h.count, h.center_lat, h.center_lng)) := by
  unfold hotspotsOf
  simp only [List.map_map]
  exact List.map_congr_left (fun kv _ => rfl)

/-- C9: `reverse_geocode` absorbs every failure of the external call into
the fallback string `"Unknown location"`, and the density analysis is
independent of the labeler: with the labels stripped, any two labeling
oracles produce identical results (in particular a failing labeler never
prevents the complete report). -/
theorem reverse_geocode_fallback_independence (geo1 geo2 : ℚ → ℚ → GeoOutcome)
    (input : PlacesInput) (g : ℤ) :
    reverse_geocode .raise = "Unknown location" ∧
    (∀ hr oa, reverse_geocode (.response false hr oa) = "Unknown location") ∧
    (∀ ok oa, reverse_geocode (.response ok false oa) = "Unknown location") ∧
    (∀ ok hr, reverse_geocode (.response ok hr none) = "Unknown location") ∧
    (analyze_density geo1 input g).map stripReport =
      (analyze_density geo2 input g).map stripReport := by
  refine ⟨rfl, fun hr oa => rfl, fun ok oa => by cases ok <;> rfl,
    fun ok hr => by cases ok <;> cases hr <;> rfl, ?_⟩
  cases input with
  | notAList => rfl
  | ofList places =>
      rcases eq_or_ne places [] with rfl | hne
      · rfl
      · by_cases hv : (maxLatOf places ≠ minLatOf places ∨
            maxLngOf places ≠ minLngOf places) ∧ g = 0
        · rw [analyze_density_divzero geo1 places g hne hv,
            analyze_density_divzero geo2 places g hne hv]
        · rw [analyze_density_ok geo1 places g hne hv,
            analyze_density_ok geo2 places g hne hv]
          simp only [Except.map]
          unfold stripReport
          rw [stripHotspots_independent geo1 geo2 places g]

theorem center_bounds (mn mx : ℚ) (g row : ℤ) (hmm : mn < mx) (hg : 1 ≤ g)
    (h0 : 0 ≤ row) (hrow : row < g) :
    mn < mn + ((row : ℚ) + 1/2) * ((mx - mn) / (g : ℚ)) ∧
    mn + ((row : ℚ) + 1/2) * ((mx - mn) / (g : ℚ)) < mx := by
  have hgQ : (0 : ℚ) < (g : ℚ) := by exact_mod_cast (by omega : (0:ℤ) < g)
  have hrQ : (0 : ℚ) ≤ (row : ℚ) := by exact_mod_cast h0
  have hrgQ : (row : ℚ) + 1 ≤ (g : ℚ) := by
    exact_mod_cast (by omega : row + 1 ≤ g)
  have hd : (0 : ℚ) < mx - mn := sub_pos.mpr hmm
  constructor
  · have hpos : (0 : ℚ) < ((row : ℚ) + 1/2) * ((mx - mn) / (g : ℚ)) :=
      mul_pos (by linarith) (div_pos hd hgQ)
    linarith
  · have heq : ((row : ℚ) + 1/2) * ((mx - mn) / (g : ℚ)) =
        (((row : ℚ) + 1/2) / (g : ℚ)) * (mx - mn) := by ring
    have hlt : ((row : ℚ) + 1/2) / (g : ℚ) < 1 :=
      (div_lt_one hgQ).mpr (by linarith)
    have h1 : ((row : ℚ) + 1/2) * ((mx - mn) / (g : ℚ)) < mx - mn := by
      rw [heq]
      calc (((row : ℚ) + 1/2) / (g : ℚ)) * (mx - mn)
          < 1 * (mx - mn) := mul_lt_mul_of_pos_right hlt hd
        _ = mx - mn := one_mul _
    linarith

/-- C10: when the bounding box is non-degenerate in both axes and
`gridSize ≥ 1`, every reported hotspot centroid lies strictly inside the
bounding box. -/
theorem analyze_density_centroid_in_box (geo : ℚ → ℚ → GeoOutcome)
    (places : List Place) (g : ℤ) (hne : places ≠ []) (hg : 1 ≤ g)
    (hlat : minLatOf places < maxLatOf places)
    (hlng : minLngOf places < maxLngOf places) :
    ∃ r, analyze_density geo (.ofList places) g = .ok r ∧
      ∀ h ∈ r.hotspots,
        minLatOf places < h.center_lat ∧ h.center_lat < maxLatOf places ∧
        minLngOf places < h.center_lng ∧ h.center_lng < maxLngOf places := by
  refine ⟨_, analyze_density_ok_of_ne_zero geo places g hne (by omega), ?_⟩
  intro h hh
  have hh2 : h ∈ hotspotsOf geo places g := hh
  unfold hotspotsOf at hh2
  rcases List.mem_map.mp hh2 with ⟨kv, hkv, rfl⟩
  have hkv2 : kv ∈ sortedCellsOf places g := List.mem_of_mem_take hkv
  have hkv3 : kv ∈ gridCountsOf places g := by
    unfold sortedCellsOf at hkv2
    exact (List.mem_insertionSort countGE).mp hkv2
  have hkey : kv.1 ∈ (gridCountsOf places g).map (·.1) :=
    List.mem_map_of_mem _ hkv3
  rcases (mem_keys_gridCountsOf places g kv.1).mp hkey with ⟨p, hp, hcell⟩
  have hlats_ne : latsOf places ≠ [] := fun hl => hne (List.map_eq_nil_iff.mp hl)
  have hlngs_ne : lngsOf places ≠ [] := fun hl => hne (List.map_eq_nil_iff.mp hl)
  have hrow : 0 ≤ kv.1.1 ∧ kv.1.1 < g := by
    rw [← hcell]
    exact binOf_mem (latsOf places) g p.lat (List.mem_map_of_mem _ hp)
      hlats_ne hg
  have hcol : 0 ≤ kv.1.2 ∧ kv.1.2 < g := by
    rw [← hcell]
    exact binOf_mem (lngsOf places) g p.lng (List.mem_map_of_mem _ hp)
      hlngs_ne hg
  have hstep_lat : latStepOf places g =
      (maxLatOf places - minLatOf places) / (g : ℚ) := by
    unfold latStepOf stepOf
    exact if_pos (ne_of_gt hlat)
  have hstep_lng : lngStepOf places g =
      (maxLngOf places - minLngOf places) / (g : ℚ) := by
    unfold lngStepOf stepOf
    exact if_pos (ne_of_gt hlng)
  rw [mkHotspot_center_lat, mkHotspot_center_lng, hstep_lat, hstep_lng]
  obtain ⟨hb1a, hb1b⟩ := center_bounds (minLatOf places) (maxLatOf places) g
    kv.1.1 hlat hg hrow.1 hrow.2
  obtain ⟨hb2a, hb2b⟩ := center_bounds (minLngOf places) (maxLngOf places) g
    kv.1.2 hlng hg hcol.1 hcol.2
  exact ⟨hb1a, hb1b, hb2a, hb2b⟩

theorem analyze_density_centroid_in_box_witness :
    ∃ r, analyze_density geoRaise (.ofList [p00, p12]) 2 = .ok r ∧
      ∀ h ∈ r.hotspots,
        minLatOf [p00, p12] < h.center_lat ∧
        h.center_lat < maxLatOf [p00, p12] ∧
        minLngOf [p00, p12] < h.center_lng ∧
        h.center_lng < maxLngOf [p00, p12] :=
  analyze_density_centroid_in_box geoRaise [p00, p12] 2 (by decide)
    (by decide) (by decide) (by decide)

/-- C5 counterexample: `grid_size = 0` is not a positive integer, yet with
a single input point `analyze_density` does not return any validation
failure: it computes and returns a full report (with the out-of-range
grid cell `(-1, -1)` produced by clamping `0 ≥ 0` down to `-1`). -/
theorem analyze_density_gridSizeZero_report :
    analyze_density geoRaise (.ofList [p00]) 0 =
      .ok { total_places := 1
            grid_size := 0
            hotspots := [{ grid_cell := (-1, -1)
                           count := 1
                           center_lat := -1/200
                           center_lng := -1/200
                           approximate_location := "Unknown location" }] } := by
  have hs : stepOf [(0 : ℚ)] 0 = 1/100 := by
    unfold stepOf
    rw [if_neg]
    simp [listMin, listMax]
  have hraw : rawBin 0 (1/100) 0 = 0 := by
    unfold rawBin
    rw [if_pos (by norm_num)]
    have h0 : ((0 : ℚ) - 0) / (1/100) = 0 := by norm_num
    rw [h0]
    rfl
  have hcell : cellOf [p00] 0 p00 = (-1, -1) := by
    unfold cellOf binOf
    rw [show latsOf [p00] = [(0 : ℚ)] from rfl,
        show lngsOf [p00] = [(0 : ℚ)] from rfl,
        show p00.lat = 0 from rfl, show p00.lng = 0 from rfl,
        show listMin [(0 : ℚ)] = 0 from rfl, hs, hraw]
    rfl
  have hgrid : gridCountsOf [p00] 0 = [((-1, -1), 1)] := by
    unfold gridCountsOf
    show bump (cellOf [p00] 0 p00) [] = _
    rw [hcell]
    rfl
  have hhot : hotspotsOf geoRaise [p00] 0 =
      [{ grid_cell := (-1, -1)
         count := 1
         center_lat := -1/200
         center_lng := -1/200
         approximate_location := "Unknown location" }] := by
    unfold hotspotsOf sortedCellsOf
    rw [hgrid]
    show [mkHotspot geoRaise (minLatOf [p00]) (minLngOf [p00])
      (latStepOf [p00] 0) (lngStepOf [p00] 0) ((-1, -1), 1)] = _
    rw [show minLatOf [p00] = 0 from rfl, show minLngOf [p00] = 0 from rfl,
        show latStepOf [p00] 0 = stepOf [(0 : ℚ)] 0 from rfl,
        show lngStepOf [p00] 0 = stepOf [(0 : ℚ)] 0 from rfl, hs]
    unfold mkHotspot
    simp only [geoRaise, reverse_geocode, List.cons.injEq, Hotspot.mk.injEq,
      and_true]
    norm_num
  have hok := analyze_density_ok geoRaise [p00] 0 (by decide) (by decide)
  rw [hok, hhot]
  rfl

/-- C5 amended: `analyze_density` performs no grid-size validation.  With
`grid_size = 0` it returns the generic caught-exception error value
`"float division by zero"` when the bounding box is non-degenerate in
some axis; but with `grid_size = 0` and a fully degenerate bounding box,
and likewise for every negative `grid_size`, it returns a computed report
rather than any `InvalidConfiguration` failure. -/
theorem analyze_density_no_gridSize_validation (geo : ℚ → ℚ → GeoOutcome)
    (places : List Place) (g : ℤ) (hne : places ≠ []) :
    (g = 0 → (maxLatOf places ≠ minLatOf places ∨
              maxLngOf places ≠ minLngOf places) →
      analyze_density geo (.ofList places) g =
        .error "float division by zero") ∧
    (g = 0 → maxLatOf places = minLatOf places →
      maxLngOf places = minLngOf places →
      ∃ r, analyze_density geo (.ofList places) g = .ok r) ∧
    (g < 0 → ∃ r, analyze_density geo (.ofList places) g = .ok r) := by
  refine ⟨?_, ?_, ?_⟩
  · intro hg hnd
    exact analyze_density_divzero geo places g hne ⟨hnd, hg⟩
  · intro hg h1 h2
    exact ⟨_, analyze_density_ok geo places g hne (by tauto)⟩
  · intro hg
    exact ⟨_, analyze_density_ok_of_ne_zero geo places g hne (by omega)⟩

theorem analyze_density_no_gridSize_validation_witness :
    (((0 : ℤ) = 0 → (maxLatOf [p00, p12] ≠ minLatOf [p00, p12] ∨
                     maxLngOf [p00, p12] ≠ minLngOf [p00, p12]) →
      analyze_density geoRaise (.ofList [p00, p12]) 0 =
        .error "float division by zero") ∧
    ((0 : ℤ) = 0 → maxLatOf [p00, p12] = minLatOf [p00, p12] →
      maxLngOf [p00, p12] = minLngOf [p00, p12] →
      ∃ r, analyze_density geoRaise (.ofList [p00, p12]) 0 = .ok r) ∧
    ((0 : ℤ) < 0 → ∃ r, analyze_density geoRaise (.ofList [p00, p12]) 0 = .ok r)) :=
  analyze_density_no_gridSize_validation geoRaise [p00, p12] 0 (by decide)

theorem analyze_density_degenerate_single_cell_witness :
    latStepOf [p00, p00] 5 = 1/100 ∧ lngStepOf [p00, p00] 5 = 1/100 ∧
    (∀ p ∈ [p00, p00], cellOf [p00, p00] 5 p = (0, 0)) ∧
    ∃ r, analyze_density geoRaise (.ofList [p00, p00]) 5 = .ok r ∧
      r.hotspots.length = 1 ∧
      ∀ h ∈ r.hotspots, h.count = r.total_places ∧ h.grid_cell = (0, 0) :=
  analyze_density_degenerate_single_cell geoRaise [p00, p00] 5 0 0
    (by decide) (by decide) (by decide) (by decide)

end GridDensity
